import Mathlib

/-!
# QuakesMap: query-parameter mapping, fetch orchestration and marker radius

A shallow embedding of `src/maps/QuakesMap.jsx`.

* JavaScript strings are embedded as Lean `String`s (sequences of code
  points).  The only patterns the program searches for are the single BMP
  characters `M` and `+`, which never occur inside a surrogate pair, so
  working on code points instead of UTF-16 code units does not change any
  result.
* `String.prototype.toLowerCase` is embedded as the ASCII lower-casing of each
  character; code points outside ASCII are left unchanged.
* `Math.pow`, `Math.sqrt` and `Math.PI` are read over the real numbers.  The
  program evaluates them on IEEE-754 doubles, where the result is rounded,
  `Math.pow` underflows to `0` and overflows to `Infinity` at extreme
  magnitudes; none of that is captured, so the real reading is used only at
  magnitude `1`, where the exponent is exactly `0` and the area exactly `10`
  in doubles as well.
-/

namespace QuakesMap

/-! ## String primitives -/

/-- `String.prototype.replace(pat, rep)` with a string pattern, on character
lists: the first occurrence of `pat` (scanning from the left) is replaced by
`rep`; when `pat` does not occur the input is returned unchanged. -/
def replaceFirst (pat rep : List Char) : List Char → List Char
  | [] => if pat = [] then rep else []
  | c :: cs =>
    if pat.isPrefixOf (c :: cs) then rep ++ (c :: cs).drop pat.length
    else c :: replaceFirst pat rep cs

/-- `s.replace(pat, rep)` for a string pattern `pat`. -/
def jsReplace (s pat rep : String) : String :=
  ⟨replaceFirst pat.data rep.data s.data⟩

/-- `s.toLowerCase()`, character by character, on ASCII letters only: a cased
letter outside ASCII is left as it is, where JavaScript would fold it. -/
def toLowerCase (s : String) : String :=
  ⟨s.data.map Char.toLower⟩

/-! ## Constants of the module -/

/-- Line 14: `BASE_URL`. -/
def BASE_URL : String := "https://earthquake.usgs.gov/earthquakes/feed/v1.0/summary/"

/-- Line 72: `magnitudeOptions` of `Infospalte`. -/
def magnitudeOptions : List String := ["ALL", "M1.0+", "M2.5+", "M4.5+", "SIGNIFICANT"]

/-- Lines 73-78: `timePeriodOptions` of `Infospalte`. -/
def timePeriodOptions : List String := ["LAST HOUR", "LAST DAY", "LAST 7 DAYS", "LAST 30 DAYS"]

/-! ## The effect of `Map` -/

/-- Lines 153-157: the value of `magParam` for a given `selectedMinMag`. -/
def magParam (selectedMinMag : String) : String :=
  let magParam :=
    if selectedMinMag = "ALL" then "all"
    else toLowerCase (jsReplace (jsReplace selectedMinMag "M" "") "+" "")
  if magParam = "significant" then "significant" else magParam

/-- Lines 164-180: the value of `periodParam` after the `switch`. -/
def periodParam (selectedTimespan : String) : String :=
  if selectedTimespan = "LAST HOUR" then "hour"
  else if selectedTimespan = "LAST DAY" then "day"
  else if selectedTimespan = "LAST 7 DAYS" then "week"
  else if selectedTimespan = "LAST 30 DAYS" then "month"
  else "day"

/-- Lines 149-185: the URL handed to `fetchQuakeData` by the effect, or `none`
when the guard on line 150 returns early (an empty string is falsy). -/
def effectUrl (selectedMinMag selectedTimespan : String) : Option String :=
  if selectedMinMag = "" ∨ selectedTimespan = "" then none
  else some (BASE_URL ++ magParam selectedMinMag ++ "_" ++ periodParam selectedTimespan
    ++ ".geojson")

/-! ## Values, errors and the state of `Map` -/

/-- A JavaScript value as far as the program handles one: `undefined`, or what
`JSON.parse` can produce.  Numbers are kept as the rational they denote. -/
inductive JsValue where
  | undefined : JsValue
  | null : JsValue
  | bool (b : Bool) : JsValue
  | number (q : ℚ) : JsValue
  | string (s : String) : JsValue
  | array (items : List JsValue) : JsValue
  | object (fields : List (String × JsValue)) : JsValue

/-- A thrown value or the reason of a rejected promise. -/
inductive JsError where
  | networkError (reason : String) : JsError
  | error (message : String) : JsError
  | syntaxError (message : String) : JsError
  | typeError (message : String) : JsError
  deriving DecidableEq

/-- What `console.log` has been called with. -/
inductive LogEntry where
  | thrown (e : JsError) : LogEntry
  | text (label : String) (value : String) : LogEntry
  deriving DecidableEq

/-- The state hooks of `Map` (lines 132-134) and the console. -/
structure MapState where
  quakesJson : JsValue
  selectedMinMag : String
  selectedTimespan : String
  console : List LogEntry

/-- The initial values passed to `useState` on lines 132-134. -/
def initialState : MapState :=
  { quakesJson := .array [], selectedMinMag := "ALL", selectedTimespan := "LAST DAY",
    console := [] }

/-- A settled `Response`: its `ok` flag and what `resp.json()` settles to. -/
structure Response where
  ok : Bool
  json : Except JsError JsValue

/-- What `fetch(url)` settles to: a rejection or a response. -/
abbrev FetchOutcome := Except JsError Response

/-- Asynchronous code of `Map`: it may throw and it updates the state; a state
update made before a throw stays in place. -/
abbrev JsM := ExceptT JsError (StateM MapState)

/-- Property read `v[key]` on a value: a `TypeError` on `undefined` and `null`,
the last field of that name on an object, `undefined` otherwise. -/
def getProp (v : JsValue) (key : String) : Except JsError JsValue :=
  match v with
  | .undefined => .error (.typeError ("Cannot read properties of undefined (reading " ++ key ++ ")"))
  | .null => .error (.typeError ("Cannot read properties of null (reading " ++ key ++ ")"))
  | .object fields =>
    match fields.reverse.find? (fun kv => kv.1 == key) with
    | some kv => .ok kv.2
    | none => .ok .undefined
  | _ => .ok .undefined

/-- The state setter `setQuakesJson`. -/
def setQuakesJson (v : JsValue) : JsM Unit :=
  modify (fun st => { st with quakesJson := v })

/-- The call `console.log(entry)`. -/
def consoleLog (entry : LogEntry) : JsM Unit :=
  modify (fun st => { st with console := st.console ++ [entry] })

/-- Lines 136-147: `fetchQuakeData(url)`, with what `fetch(url)` settles to as
an input. -/
def fetchQuakeData (url : String) (outcome : FetchOutcome) : JsM Unit :=
  tryCatch
    (do
      let resp ← liftExcept outcome
      if !resp.ok then
        throw (JsError.error ("Error fetching data from " ++ url))
      let data ← liftExcept resp.json
      let features ← liftExcept (getProp data "features")
      setQuakesJson features)
    (fun error => consoleLog (.thrown error))

/-- Lines 149-185: one run of the effect of `Map` on the current selections. -/
def runEffect (outcome : FetchOutcome) : JsM Unit := do
  let st ← get
  match effectUrl st.selectedMinMag st.selectedTimespan with
  | none => pure ()
  | some url =>
    consoleLog (.text "Fetching data from URL:" url)
    fetchQuakeData url outcome

/-- The three failures of a fetch: the promise rejects, the response is not
`ok`, or the body does not parse as JSON. -/
def fetchFailed : FetchOutcome → Bool
  | .error _ => true
  | .ok resp =>
    !resp.ok || (match resp.json with
      | .error _ => true
      | .ok _ => false)

/-! ## Marker radius -/

/-- Lines 16-22: the formula of `getMarkerRadius(magnitude)` read over the real
numbers.  The program evaluates it on IEEE-754 doubles: rounding, underflow of
`Math.pow` to `0` and overflow to `Infinity` are not part of this reading, so
it says nothing about order, positivity or scaling of the computed radii. -/
noncomputable def getMarkerRadius (magnitude : ℝ) : ℝ :=
  let baseArea : ℝ := 10
  let scaleFactor : ℝ := 2.5
  let area := baseArea * (10 : ℝ) ^ ((magnitude - 1) / scaleFactor)
  Real.sqrt (area / Real.pi)

/-! ## The mapping as the specification words it -/

/-- The magnitude table of section 4.2 of the specification. -/
def specMagSegment (label : String) : Option String :=
  if label = "ALL" then some "all"
  else if label = "M1.0+" then some "1.0"
  else if label = "M2.5+" then some "2.5"
  else if label = "M4.5+" then some "4.5"
  else if label = "SIGNIFICANT" then some "significant"
  else none

/-- The period table of section 4.2 of the specification, without its default row. -/
def specPeriodSegment (label : String) : Option String :=
  if label = "LAST HOUR" then some "hour"
  else if label = "LAST DAY" then some "day"
  else if label = "LAST 7 DAYS" then some "week"
  else if label = "LAST 30 DAYS" then some "month"
  else none

/-- Strip a leading `M`, if the label has one. -/
def stripLeadingM : List Char → List Char
  | 'M' :: rest => rest
  | l => l

/-- Strip a trailing `+`, if the label has one. -/
def stripTrailingPlus (l : List Char) : List Char :=
  if l.getLast? = some '+' then l.dropLast else l

/-- The generic rule of section 4.2 of the specification: strip a leading `M`
and a trailing `+`, lower-case the remainder; `significant` and `all` are kept
as they are. -/
def genericRule (label : String) : String :=
  let r := toLowerCase ⟨stripTrailingPlus (stripLeadingM label.data)⟩
  if r = "significant" then "significant"
  else if r = "all" then "all"
  else r

/-- A label made of an optional leading `M`, a body and an optional trailing `+`. -/
def mkLabel (m : Bool) (body : List Char) (p : Bool) : String :=
  ⟨(if m then ['M'] else []) ++ body ++ (if p then ['+'] else [])⟩

end QuakesMap

namespace QuakesMap

/-! ## Lemmas on the string primitives -/

theorem replaceFirst_single_of_not_mem (c : Char) (l : List Char) (h : c ∉ l) :
    replaceFirst [c] [] l = l := by
  induction l with
  | nil => simp [replaceFirst]
  | cons a t ih =>
    have ha : c ≠ a := fun e => h (by simp [e])
    have ht : c ∉ t := fun e => h (by simp [e])
    simp [replaceFirst, List.isPrefixOf, ha, ih ht]

theorem replaceFirst_single_cons_self (c : Char) (l : List Char) :
    replaceFirst [c] [] (c :: l) = l := by
  simp [replaceFirst, List.isPrefixOf]

theorem replaceFirst_single_append_self (c : Char) (l : List Char) (h : c ∉ l) :
    replaceFirst [c] [] (l ++ [c]) = l := by
  induction l with
  | nil => simp [replaceFirst, List.isPrefixOf]
  | cons a t ih =>
    have ha : c ≠ a := fun e => h (by simp [e])
    have ht : c ∉ t := fun e => h (by simp [e])
    simp [replaceFirst, List.isPrefixOf, ha, ih ht]

theorem stripLeadingM_cons_self (l : List Char) : stripLeadingM ('M' :: l) = l := by
  simp [stripLeadingM]

theorem stripLeadingM_of_not_mem (l : List Char) (h : 'M' ∉ l) : stripLeadingM l = l := by
  cases l with
  | nil => rfl
  | cons a t =>
    have ha : a ≠ 'M' := fun e => h (by simp [e])
    unfold stripLeadingM
    split
    · rename_i heq
      injection heq with h1 h2
      exact absurd h1 ha
    · rfl

theorem stripTrailingPlus_of_not_mem (l : List Char) (h : '+' ∉ l) :
    stripTrailingPlus l = l := by
  unfold stripTrailingPlus
  have : l.getLast? ≠ some '+' := fun e => h (List.mem_of_getLast?_eq_some e)
  simp [this]

theorem stripTrailingPlus_append_self (l : List Char) :
    stripTrailingPlus (l ++ ['+']) = l := by
  simp [stripTrailingPlus]

/-- On a label `[M] body [+]` whose body has neither `M` nor `+`, the two
`replace` calls of the code remove what the generic rule strips. -/
theorem replace_eq_strip (m p : Bool) (body : List Char) (hM : 'M' ∉ body) (hP : '+' ∉ body) :
    replaceFirst ['+'] [] (replaceFirst ['M'] [] (mkLabel m body p).data) =
      stripTrailingPlus (stripLeadingM (mkLabel m body p).data) := by
  have hMp : 'M' ∉ body ++ ['+'] := by simp [hM]
  cases m <;> cases p <;> simp only [mkLabel, if_true, if_false, List.nil_append,
    List.append_nil, List.singleton_append, List.cons_append, Bool.false_eq_true]
  · rw [replaceFirst_single_of_not_mem _ _ hM, replaceFirst_single_of_not_mem _ _ hP,
      stripLeadingM_of_not_mem _ hM, stripTrailingPlus_of_not_mem _ hP]
  · rw [replaceFirst_single_of_not_mem _ _ hMp, replaceFirst_single_append_self _ _ hP,
      stripLeadingM_of_not_mem _ hMp, stripTrailingPlus_append_self]
  · rw [replaceFirst_single_cons_self, replaceFirst_single_of_not_mem _ _ hP,
      stripLeadingM_cons_self, stripTrailingPlus_of_not_mem _ hP]
  · rw [replaceFirst_single_cons_self, replaceFirst_single_append_self _ _ hP,
      stripLeadingM_cons_self, stripTrailingPlus_append_self]

/-! ## Lemmas on lower-casing -/

theorem toLower_cases (c d : Char) (h : c.toLower = d) :
    c = d ∨ ∃ n, 65 ≤ n ∧ n ≤ 90 ∧ c = Char.ofNat n ∧ d = Char.ofNat (n + 32) := by
  unfold Char.toLower at h
  by_cases hc : c.toNat ≥ 65 ∧ c.toNat ≤ 90
  · right
    simp only [hc, and_self, if_true] at h
    exact ⟨c.toNat, hc.1, hc.2, (Char.ofNat_toNat c).symm, h.symm⟩
  · left
    simpa [hc] using h

/-- Only a character that is no lower-case letter is its own sole preimage. -/
theorem toLower_eq_nonletter (c d : Char) (hd : d.toNat < 97 ∨ 122 < d.toNat)
    (h : c.toLower = d) : c = d := by
  rcases toLower_cases c d h with h | ⟨n, h1, h2, -, rfl⟩
  · exact h
  · exfalso
    interval_cases n <;> revert hd <;> decide

theorem toLower_eq_m (c : Char) (h : c.toLower = 'm') : c = 'm' ∨ c = 'M' := by
  rcases toLower_cases c _ h with h | ⟨n, h1, h2, rfl, h3⟩
  · exact Or.inl h
  · right
    interval_cases n <;> first | rfl | (exfalso; revert h3; decide)

theorem map_toLower_nonletters (l t : List Char)
    (ht : ∀ d ∈ t, d.toNat < 97 ∨ 122 < d.toNat) (h : l.map Char.toLower = t) : l = t := by
  induction l generalizing t with
  | nil => simpa using h
  | cons a r ih =>
    cases t with
    | nil => simp at h
    | cons b u =>
      simp only [List.map_cons, List.cons.injEq] at h
      have hb := toLower_eq_nonletter a b (ht b (by simp)) h.1
      have hu := ih u (fun d hd => ht d (by simp [hd])) h.2
      rw [hb, hu]

/-- A string that lower-cases to `m` followed by non-letters and holds no
`m` is `M` followed by the same characters. -/
theorem eq_of_toLowerCase_numeric (s : String) (t : List Char)
    (ht : ∀ d ∈ t, d.toNat < 97 ∨ 122 < d.toNat)
    (h : toLowerCase s = ⟨'m' :: t⟩) (hm : 'm' ∉ s.data) : s = ⟨'M' :: t⟩ := by
  have hd : s.data.map Char.toLower = 'm' :: t := congrArg String.data h
  obtain ⟨l⟩ := s
  cases l with
  | nil => simp at hd
  | cons a r =>
    simp only [List.map_cons, List.cons.injEq] at hd
    have hr := map_toLower_nonletters r t ht hd.2
    rcases toLower_eq_m a hd.1 with ha | ha
    · exact absurd (by simp [ha]) hm
    · rw [ha, hr]

/-- A string whose lower-casing holds neither `m` nor `+` is left alone by
the two `replace` calls of `magParam`. -/
theorem jsReplace_of_toLowerCase (s t : String) (h : toLowerCase s = t)
    (hm : 'm' ∉ t.data) (hp : '+' ∉ t.data) :
    toLowerCase (jsReplace (jsReplace s "M" "") "+" "") = t := by
  have hd : s.data.map Char.toLower = t.data := congrArg String.data h
  have hM : 'M' ∉ s.data := fun hin => hm (hd ▸ List.mem_map_of_mem Char.toLower hin)
  have hP : '+' ∉ s.data := fun hin => hp (hd ▸ List.mem_map_of_mem Char.toLower hin)
  have h1 : jsReplace s "M" "" = s := by
    show (⟨replaceFirst ['M'] [] s.data⟩ : String) = s
    rw [replaceFirst_single_of_not_mem _ _ hM]
  have h2 : jsReplace s "+" "" = s := by
    show (⟨replaceFirst ['+'] [] s.data⟩ : String) = s
    rw [replaceFirst_single_of_not_mem _ _ hP]
  rw [h1, h2, h]

/-! ## The query-parameter mapper -/

/-- C1: on each of the five magnitude labels the code's `magParam` is the
segment of the table: `ALL` gives `all`, `M1.0+` gives `1.0`, `M2.5+` gives
`2.5`, `M4.5+` gives `4.5` and `SIGNIFICANT` gives `significant`. -/
theorem magParam_table :
    magnitudeOptions = ["ALL", "M1.0+", "M2.5+", "M4.5+", "SIGNIFICANT"] ∧
    magParam "ALL" = "all" ∧ magParam "M1.0+" = "1.0" ∧ magParam "M2.5+" = "2.5" ∧
    magParam "M4.5+" = "4.5" ∧ magParam "SIGNIFICANT" = "significant" := by
  refine ⟨rfl, ?_, ?_, ?_, ?_, ?_⟩ <;> decide

/-- C2: the `switch` computing `periodParam` is a total function of the
selected string: the four labels give `hour`, `day`, `week` and `month`, every
other string gives `day`, and the result is always one of the four segments. -/
theorem periodParam_total :
    periodParam "LAST HOUR" = "hour" ∧ periodParam "LAST DAY" = "day" ∧
    periodParam "LAST 7 DAYS" = "week" ∧ periodParam "LAST 30 DAYS" = "month" ∧
    (∀ s : String, s ∉ timePeriodOptions → periodParam s = "day") ∧
    (∀ s : String, periodParam s ∈ ["hour", "day", "week", "month"]) := by
  refine ⟨by decide, by decide, by decide, by decide, ?_, ?_⟩
  · intro s hs
    simp only [timePeriodOptions, List.mem_cons, List.mem_singleton, not_or,
      List.not_mem_nil, or_false] at hs
    obtain ⟨h1, h2, h3, h4⟩ := hs
    simp [periodParam, h1, h2, h3, h4]
  · intro s
    unfold periodParam
    split_ifs <;> simp

/-- The default row of C2 at a concrete string outside the enumeration. -/
theorem periodParam_total_witness : periodParam "LAST YEAR" = "day" :=
  periodParam_total.2.2.2.2.1 "LAST YEAR" (by decide)

/-- C3: for every magnitude label and every time-window label of the two
enumerations the effect builds `BASE_URL ++ magSegment ++ "_" ++ periodSegment
++ ".geojson"` with the segments of the tables; `M2.5+` with `LAST 7 DAYS`
gives `.../summary/2.5_week.geojson` and `ALL` with `LAST HOUR` gives
`.../summary/all_hour.geojson`. -/
theorem effectUrl_table :
    (∀ mag per : String, mag ∈ magnitudeOptions → per ∈ timePeriodOptions →
      ∃ m p : String, specMagSegment mag = some m ∧ specPeriodSegment per = some p ∧
        effectUrl mag per = some (BASE_URL ++ m ++ "_" ++ p ++ ".geojson")) ∧
    effectUrl "M2.5+" "LAST 7 DAYS" =
      some "https://earthquake.usgs.gov/earthquakes/feed/v1.0/summary/2.5_week.geojson" ∧
    effectUrl "ALL" "LAST HOUR" =
      some "https://earthquake.usgs.gov/earthquakes/feed/v1.0/summary/all_hour.geojson" := by
  refine ⟨?_, by decide, by decide⟩
  intro mag per hm hp
  simp only [magnitudeOptions, timePeriodOptions, List.mem_cons, List.mem_singleton,
    List.not_mem_nil, or_false] at hm hp
  rcases hm with rfl | rfl | rfl | rfl | rfl <;> rcases hp with rfl | rfl | rfl | rfl
  all_goals exact ⟨_, _, rfl, rfl, by decide⟩

/-- C3 at the pair `M4.5+`, `LAST 30 DAYS`. -/
theorem effectUrl_table_witness :
    effectUrl "M4.5+" "LAST 30 DAYS" =
      some "https://earthquake.usgs.gov/earthquakes/feed/v1.0/summary/4.5_month.geojson" := by
  obtain ⟨m, p, hm, hp, h⟩ := effectUrl_table.1 "M4.5+" "LAST 30 DAYS" (by decide) (by decide)
  have hm2 : m = "4.5" := by
    have : specMagSegment "M4.5+" = some "4.5" := by decide
    rw [this] at hm
    exact (Option.some.inj hm).symm
  have hp2 : p = "month" := by
    have : specPeriodSegment "LAST 30 DAYS" = some "month" := by decide
    rw [this] at hp
    exact (Option.some.inj hp).symm
  subst hm2 hp2
  rw [h]
  decide

/-- C10, refuted as stated: on the label `SMALL` the code removes the inner
`M` and yields `sall`, the generic rule strips nothing and yields `small`. -/
theorem magParam_ne_genericRule :
    magParam "SMALL" = "sall" ∧ genericRule "SMALL" = "small" ∧
    magParam "SMALL" ≠ genericRule "SMALL" := by
  refine ⟨by decide, by decide, by decide⟩

/-- C10, amended: on every label made of an optional leading `M`, a body
containing neither `M` nor `+`, and an optional trailing `+` (the five
enumerated labels are of this form), the code's `magParam` equals the generic
rule of the specification. -/
theorem magParam_eq_genericRule (m p : Bool) (body : List Char)
    (hM : 'M' ∉ body) (hP : '+' ∉ body) :
    magParam (mkLabel m body p) = genericRule (mkLabel m body p) := by
  by_cases hall : mkLabel m body p = "ALL"
  · rw [hall]; decide
  · have hcode : jsReplace (jsReplace (mkLabel m body p) "M" "") "+" "" =
        ⟨stripTrailingPlus (stripLeadingM (mkLabel m body p).data)⟩ := by
      rw [← replace_eq_strip m p body hM hP]
      rfl
    simp only [magParam, genericRule, hall, if_false, hcode]
    split_ifs <;> simp_all

/-- C10 amended, at the label `M2.5+`. -/
theorem magParam_eq_genericRule_witness :
    mkLabel true ['2', '.', '5'] true = "M2.5+" ∧ 'M' ∉ ['2', '.', '5'] ∧ '+' ∉ ['2', '.', '5'] ∧
    magParam "M2.5+" = genericRule "M2.5+" :=
  ⟨by decide, by decide, by decide,
    magParam_eq_genericRule true true ['2', '.', '5'] (by decide) (by decide)⟩

/-- C9, refuted as stated: `m2.5+` equals the label `M2.5+` up to letter
case, and the code maps it to `m2.5`, not to the table segment `2.5`. -/
theorem magParam_not_caseInsensitive :
    toLowerCase "m2.5+" = toLowerCase "M2.5+" ∧ specMagSegment "M2.5+" = some "2.5" ∧
    magParam "m2.5+" = "m2.5" ∧ magParam "m2.5+" ≠ "2.5" := by
  refine ⟨by decide, by decide, by decide, by decide⟩

/-- C9, amended: for every string `s` that equals one of the five labels up
to letter case and holds no lower-case `m` (every spelling of `ALL` and of
`SIGNIFICANT`, and the labels `M1.0+`, `M2.5+`, `M4.5+` themselves), the
code's `magParam s` is the table segment of that label. -/
theorem magParam_caseInsensitive (s label : String) (hl : label ∈ magnitudeOptions)
    (hs : toLowerCase s = toLowerCase label) (hm : 'm' ∉ s.data) :
    some (magParam s) = specMagSegment label := by
  simp only [magnitudeOptions, List.mem_cons, List.mem_singleton, List.not_mem_nil,
    or_false] at hl
  rcases hl with rfl | rfl | rfl | rfl | rfl
  · have h := jsReplace_of_toLowerCase s "all" hs (by decide) (by decide)
    have hs2 : toLowerCase s = "all" := hs
    have : magParam s = "all" := by
      unfold magParam
      by_cases hall : s = "ALL"
      · simp [hall]
      · simp only [hall, if_false, h]; decide
    rw [this]; decide
  · have := eq_of_toLowerCase_numeric s ['1', '.', '0', '+'] (by decide) hs hm
    rw [this]; decide
  · have := eq_of_toLowerCase_numeric s ['2', '.', '5', '+'] (by decide) hs hm
    rw [this]; decide
  · have := eq_of_toLowerCase_numeric s ['4', '.', '5', '+'] (by decide) hs hm
    rw [this]; decide
  · have h := jsReplace_of_toLowerCase s "significant" hs (by decide) (by decide)
    have : magParam s = "significant" := by
      unfold magParam
      by_cases hall : s = "ALL"
      · rw [hall] at hs
        exact absurd hs (by decide)
      · simp only [hall, if_false, h]; decide
    rw [this]; decide

/-- C9 amended, at the spelling `Significant`. -/
theorem magParam_caseInsensitive_witness :
    "SIGNIFICANT" ∈ magnitudeOptions ∧ toLowerCase "Significant" = toLowerCase "SIGNIFICANT" ∧
    'm' ∉ "Significant".data ∧ some (magParam "Significant") = specMagSegment "SIGNIFICANT" :=
  ⟨by decide, by decide, by decide,
    magParam_caseInsensitive "Significant" "SIGNIFICANT" (by decide) (by decide) (by decide)⟩

/-! ## The fetch -/

/-- C4: when the fetch rejects, the response is not `ok`, or its body does not
parse as JSON, `fetchQuakeData` completes without a thrown value and the held
`quakesJson` is the one held before the call. -/
theorem fetchQuakeData_failure (url : String) (outcome : FetchOutcome) (st : MapState)
    (h : fetchFailed outcome = true) :
    ((fetchQuakeData url outcome).run.run st).1 = Except.ok () ∧
    ((fetchQuakeData url outcome).run.run st).2.quakesJson = st.quakesJson := by
  cases outcome with
  | error e => exact ⟨rfl, rfl⟩
  | ok resp =>
    obtain ⟨ok, json⟩ := resp
    cases ok with
    | false => exact ⟨rfl, rfl⟩
    | true =>
      cases json with
      | error e => exact ⟨rfl, rfl⟩
      | ok v => simp [fetchFailed] at h

/-- C4 at a rejected fetch from the initial state: the empty collection stays. -/
theorem fetchQuakeData_failure_witness :
    fetchFailed (.error (.networkError "Failed to fetch")) = true ∧
    ((fetchQuakeData "u" (.error (.networkError "Failed to fetch"))).run.run initialState).1
      = Except.ok () ∧
    ((fetchQuakeData "u" (.error (.networkError "Failed to fetch"))).run.run
      initialState).2.quakesJson = JsValue.array [] :=
  ⟨rfl, fetchQuakeData_failure "u" (.error (.networkError "Failed to fetch")) initialState rfl⟩

/-! ## The marker radius -/

/-- C7: `getMarkerRadius 1 = sqrt (10 / π)`. -/
theorem getMarkerRadius_one : getMarkerRadius 1 = Real.sqrt (10 / Real.pi) := by
  simp [getMarkerRadius]

end QuakesMap
